import Mathlib

/-!
# Verification of the safetensors-browser shard-discovery / header-fetch / cache core

Shallow embedding of `src/repo.rs` (struct `SafeTensorsRepo`) and
`src/metadata.rs` (`get_tensors`).  Machine bytes are `UInt8`; `u64`
arithmetic is `Nat` with explicit `% 2^64` where Rust would wrap.
External collaborators (serde_json parsing, the HTTP client, the hf-hub
cache-path scheme) are abstracted as parameters or opaque path
constructors; everything else is translated line by line from the source.
-/

namespace SafetensorsBrowser

/-- `const MAX_CONCURRENT: usize = 8;` (repo.rs line 19). -/
def MAX_CONCURRENT : Nat := 8

/-- Little-endian byte encoding of a natural number into `w` bytes,
modelling `u64::to_le_bytes` (with `w = 8`). -/
def toLeBytes : Nat → Nat → List UInt8
  | 0, _ => []
  | w + 1, n => UInt8.ofNat (n % 256) :: toLeBytes w (n / 256)

/-- Little-endian interpretation of a byte list, modelling
`u64::from_le_bytes` / `bytes::Buf::get_u64_le` applied to 8 bytes. -/
def fromLeBytes : List UInt8 → Nat
  | [] => 0
  | b :: bs => b.toNat + 256 * fromLeBytes bs

theorem toLeBytes_length (w n : Nat) : (toLeBytes w n).length = w := by
  induction w generalizing n with
  | zero => rfl
  | succ w ih => simp [toLeBytes, ih]

theorem uint8_toNat_ofNat_mod (n : Nat) : (UInt8.ofNat (n % 256)).toNat = n % 256 := by
  unfold UInt8.ofNat UInt8.toNat
  simp [Fin.ofNat]

theorem fromLeBytes_toLeBytes (w n : Nat) :
    fromLeBytes (toLeBytes w n) = n % 256 ^ w := by
  induction w generalizing n with
  | zero => simp [toLeBytes, fromLeBytes, Nat.mod_one]
  | succ w ih =>
    simp only [toLeBytes, fromLeBytes, ih, uint8_toNat_ofNat_mod]
    rw [pow_succ, mul_comm (256 ^ w) 256, Nat.mod_mul]

theorem fromLeBytes_toLeBytes_of_lt {w n : Nat} (h : n < 256 ^ w) :
    fromLeBytes (toLeBytes w n) = n := by
  rw [fromLeBytes_toLeBytes, Nat.mod_eq_of_lt h]

/-- `CheckpointMetadata` (repo.rs lines 26-29).  The `metadata` field holds
the parsed `safetensors::tensor::Metadata`; since parsing is done by the
external `serde_json` in both the cache-hit and the download path, the
parsed-metadata type is a type parameter `μ` here. -/
structure CheckpointMetadata (μ : Type) where
  filename : String
  metadata : μ
deriving DecidableEq

/-- The I/O error propagated by the `?` on `File::open` in
`file_from_cache` (repo.rs line 95). -/
inductive CacheError where
  | ioError
deriving DecidableEq

/-- `SafeTensorsRepo::file_from_cache` (repo.rs lines 89-117), the cache
lookup.  Parameters model the collaborators:
* `get` is `CacheRepo::get`, returning the pointer path for a filename
  (`None` = no pointer, code line 90-93);
* `readFile` gives the byte contents of a path, `none` meaning
  `File::open` fails, which the code propagates with `?` (line 95);
* `parse` is `serde_json::from_slice::<Metadata>` (line 110).
A `BufReader`'s `read_exact` of `k` bytes fails exactly when fewer than
`k` bytes remain, so the two `read_exact` calls (lines 98 and 105) become
length tests on the byte list; both failures return `Ok(None)` in the
code, i.e. `.ok none` here. -/
def file_from_cache {π μ : Type} (get : String → Option π)
    (readFile : π → Option (List UInt8)) (parse : List UInt8 → Option μ)
    (filename : String) : Except CacheError (Option (CheckpointMetadata μ)) :=
  match get filename with
  | none => .ok none
  | some path =>
    match readFile path with
    | none => .error .ioError
    | some bytes =>
      if bytes.length < 8 then .ok none
      else
        if bytes.length - 8 < fromLeBytes (bytes.take 8) then .ok none
        else
          match parse ((bytes.drop 8).take (fromLeBytes (bytes.take 8))) with
          | some metadata => .ok (some ⟨filename, metadata⟩)
          | none => .ok none

/-- The byte contents of a materialized cache blob: the 8-byte
little-endian length prefix followed by the payload, exactly the bytes
written by `download_file` (repo.rs lines 70-71). -/
def blobBytes (headerSize : Nat) (payload : List UInt8) : List UInt8 :=
  toLeBytes 8 headerSize ++ payload

/-- **C2.** For every cached entry consulted by `file_from_cache`, once the
pointer resolves and the blob file opens, any read failure of the cached
payload (fewer than 8 bytes for the length prefix, or fewer payload bytes
than the prefix announces — the two `read_exact` failure modes, which also
subsume a mid-read I/O error) or a JSON-parse failure of the payload makes
the lookup return a miss `Ok(None)`, never an error. -/
theorem c2_corrupt_cache_entry_is_soft_miss {π μ : Type}
    (get : String → Option π) (readFile : π → Option (List UInt8))
    (parse : List UInt8 → Option μ) (filename : String) (path : π)
    (bytes : List UInt8)
    (hget : get filename = some path)
    (hread : readFile path = some bytes)
    (hbad : bytes.length < 8 ∨
      bytes.length - 8 < fromLeBytes (bytes.take 8) ∨
      parse ((bytes.drop 8).take (fromLeBytes (bytes.take 8))) = none) :
    file_from_cache get readFile parse filename = .ok none := by
  simp only [file_from_cache, hget, hread]
  by_cases h8 : bytes.length < 8
  · simp [h8]
  · simp only [if_neg h8]
    by_cases hlen : bytes.length - 8 < fromLeBytes (bytes.take 8)
    · simp [hlen]
    · simp only [if_neg hlen]
      rcases hbad with h | h | h
      · omega
      · omega
      · simp [h]

/-- Witness for C2: a one-byte cache blob (too short for the length
prefix) yields a soft miss. -/
theorem c2_corrupt_cache_entry_is_soft_miss_witness :
    file_from_cache (fun _ : String => some ()) (fun _ : Unit => some [(1 : UInt8)])
      (fun _ => (none : Option Nat)) "model.safetensors" = .ok none :=
  c2_corrupt_cache_entry_is_soft_miss (fun _ => some ()) (fun _ => some [(1 : UInt8)])
    (fun _ => none) "model.safetensors" () [(1 : UInt8)] rfl rfl (Or.inl (by decide))

/-- **C4.** Round-trip: for any tensor-table JSON payload `P` of length
`L < 2^64`, a blob holding the 8-byte little-endian encoding of `L`
followed by `P` (exactly what the download path writes) is read back by
the cache lookup as a hit whose parsed metadata is the one obtained by
parsing `P` directly. -/
theorem c4_blob_roundtrip {π μ : Type}
    (get : String → Option π) (readFile : π → Option (List UInt8))
    (parse : List UInt8 → Option μ) (filename : String) (path : π)
    (P : List UInt8) (m : μ)
    (hget : get filename = some path)
    (hread : readFile path = some (blobBytes P.length P))
    (hparse : parse P = some m)
    (hlen : P.length < 256 ^ 8) :
    file_from_cache get readFile parse filename = .ok (some ⟨filename, m⟩) := by
  simp only [file_from_cache, hget, hread]
  unfold blobBytes
  generalize hA : toLeBytes 8 P.length = A
  have hAlen : A.length = 8 := by rw [← hA]; exact toLeBytes_length 8 _
  have htake : (A ++ P).take 8 = A := by rw [← hAlen, List.take_left]
  have hdrop : (A ++ P).drop 8 = P := by rw [← hAlen, List.drop_left]
  have hfrom : fromLeBytes A = P.length := by
    rw [← hA]; exact fromLeBytes_toLeBytes_of_lt hlen
  have hblen : (A ++ P).length = 8 + P.length := by
    simp [List.length_append, hAlen, Nat.add_comm]
  rw [htake, hdrop, hfrom, hblen]
  rw [if_neg (by omega), if_neg (by omega), List.take_length, hparse]

/-- Witness for C4: the payload `"1"` (a single byte 0x31), parsed by a
toy parser to the value 7, round-trips through the blob encoding and the
cache lookup. -/
theorem c4_blob_roundtrip_witness :
    file_from_cache (fun _ : String => some ()) (fun _ : Unit => some (blobBytes 1 [(49 : UInt8)]))
      (fun b => if b = [(49 : UInt8)] then some 7 else (none : Option Nat)) "m.safetensors"
      = .ok (some ⟨"m.safetensors", 7⟩) :=
  c4_blob_roundtrip (fun _ => some ()) (fun _ => some (blobBytes 1 [(49 : UInt8)]))
    (fun b => if b = [(49 : UInt8)] then some 7 else none) "m.safetensors" ()
    [(49 : UInt8)] 7 rfl rfl (by decide) (by norm_num)

/-- The file-system locations touched by `download_file` (repo.rs lines
66-81): the uniquely-named temporary file (`tempfile::NamedTempFile`,
identified here by a unique id), the blob store directory and the
content-addressed blob path `CacheRepo::blob_path(etag)`, and the
revision-indexed pointer directory/path. -/
inductive CachePath where
  | temp (id : Nat)
  | blobDir
  | blob (etag : String)
  | pointerDir (commitHash : String)
  | pointer (commitHash : String) (filename : String)
deriving DecidableEq

/-- Abstract filesystem operations issued by `download_file`. -/
inductive FsOp where
  | write (p : CachePath) (bytes : List UInt8)
  | createDirAll (p : CachePath)
  | copy (src dst : CachePath)
  | rename (src dst : CachePath)
  | symlinkOrRename (src dst : CachePath)
  | createRef (rev : String)
deriving DecidableEq

/-- The exact sequence of filesystem operations performed by
`SafeTensorsRepo::download_file` on a cache miss (repo.rs lines 66-81),
once the two range reads have produced `headerSize` and `metadataBytes`:
write the length prefix and payload into the fresh `NamedTempFile`
(lines 66-72), `create_dir_all` on the blob path's parent (line 74),
`std::fs::copy` the temp file to the blob path (line 75),
`create_dir_all` on the pointer directory (lines 77-78),
`symlink_or_rename` the blob into the pointer path (line 80), and
`create_ref` for the commit hash (line 81). -/
def download_file_fs_trace (tempId : Nat) (etag commitHash filename : String)
    (headerSize : Nat) (metadataBytes : List UInt8) : List FsOp :=
  [ .write (.temp tempId) (blobBytes headerSize metadataBytes),
    .createDirAll .blobDir,
    .copy (.temp tempId) (.blob etag),
    .createDirAll (.pointerDir commitHash),
    .symlinkOrRename (.blob etag) (.pointer commitHash filename),
    .createRef commitHash ]

/-- Does an operation put content at path `dst` (by direct write, copy,
rename, or symlink installation)? -/
def opWritesTo (dst : CachePath) : FsOp → Bool
  | .write p _ => p = dst
  | .copy _ d => d = dst
  | .rename _ d => d = dst
  | .symlinkOrRename _ d => d = dst
  | _ => false

/-- Is an operation an atomic move/rename whose destination is `dst`? -/
def opIsRenameTo (dst : CachePath) : FsOp → Bool
  | .rename _ d => d = dst
  | _ => false

/-- Counterexample to **C1** as stated: on a concrete download, the trace
of `download_file` contains no move/rename to the blob's final
content-addressed path — the install step at repo.rs line 75 is
`std::fs::copy`, which rewrites the destination in place, not an atomic
rename of the temporary file. -/
theorem c1_counterexample_no_atomic_rename :
    (download_file_fs_trace 0 "etag0" "commit0" "model.safetensors" 1
      [(49 : UInt8)]).any (opIsRenameTo (.blob "etag0")) = false := by
  decide

/-- **C1 (amended).** For every shard downloaded on a cache miss, the
blob is materialized by writing the 8-byte length prefix followed by the
payload bytes to a uniquely-named temporary file and then *copying* that
temporary file to its final content-addressed path (`std::fs::copy`, not
an atomic move/rename): the only operation targeting the final blob path
is that copy, and no rename to the blob path occurs, so during the copy a
partially-written blob can be visible at the final path. -/
theorem c1_blob_install_is_copy_from_temp (tempId : Nat)
    (etag commitHash filename : String) (headerSize : Nat)
    (metadataBytes : List UInt8) :
    FsOp.write (.temp tempId) (blobBytes headerSize metadataBytes) ∈
        download_file_fs_trace tempId etag commitHash filename headerSize metadataBytes ∧
    (download_file_fs_trace tempId etag commitHash filename headerSize
        metadataBytes).filter (opWritesTo (.blob etag)) =
      [.copy (.temp tempId) (.blob etag)] ∧
    (download_file_fs_trace tempId etag commitHash filename headerSize
        metadataBytes).any (opIsRenameTo (.blob etag)) = false := by
  refine ⟨?_, ?_, ?_⟩ <;>
    simp [download_file_fs_trace, opWritesTo, opIsRenameTo, List.filter]

/-- The inclusive HTTP byte range of the first range read,
`header("RANGE", "bytes=0-7")` (repo.rs line 53). -/
def first_range : Nat × Nat := (0, 7)

/-- The little-endian u64 interpretation of the first response's bytes,
`bytes::Buf::get_u64_le` (repo.rs line 55): the first 8 bytes, least
significant first. -/
def get_u64_le (bytes : List UInt8) : Nat :=
  fromLeBytes (bytes.take 8)

/-- The inclusive HTTP byte range of the second range read,
`format!("bytes=8-{}", header_size + 7)` (repo.rs line 59); the `u64`
addition wraps modulo `2^64`. -/
def second_range (headerSize : Nat) : Nat × Nat :=
  (8, (headerSize + 7) % 2 ^ 64)

/-- The set of byte offsets covered by an inclusive HTTP `Range`
header `bytes=a-b` (both endpoints included). -/
def rangeBytes (r : Nat × Nat) : Finset Nat :=
  Finset.Icc r.1 r.2

/-- **C5.** On the network-fetch path the first range read requests
exactly bytes `[0, 8)`; the header length is the little-endian unsigned
64-bit interpretation of those 8 bytes; and (while `header_length + 7`
does not wrap) the second range read requests exactly bytes
`[8, 8 + header_length)`, the HTTP Range endpoints being inclusive. -/
theorem c5_range_reads (firstResponse : List UInt8)
    (h : get_u64_le firstResponse + 7 < 2 ^ 64) :
    rangeBytes first_range = Finset.Ico 0 8 ∧
    rangeBytes (second_range (get_u64_le firstResponse)) =
      Finset.Ico 8 (8 + get_u64_le firstResponse) := by
  constructor
  · show Finset.Icc 0 7 = Finset.Ico 0 8
    rw [← Nat.Ico_succ_right]
  · show Finset.Icc 8 ((get_u64_le firstResponse + 7) % 2 ^ 64) =
      Finset.Ico 8 (8 + get_u64_le firstResponse)
    rw [Nat.mod_eq_of_lt h, ← Nat.Ico_succ_right]
    congr 1
    omega

/-- Witness for C5: a first response announcing a 3-byte header makes the
second read request exactly bytes 8,9,10. -/
theorem c5_range_reads_witness :
    get_u64_le [3, 0, 0, 0, 0, 0, 0, 0] + 7 < 2 ^ 64 ∧
    rangeBytes first_range = Finset.Ico 0 8 ∧
    rangeBytes (second_range (get_u64_le [3, 0, 0, 0, 0, 0, 0, 0])) =
      Finset.Ico 8 (8 + get_u64_le [3, 0, 0, 0, 0, 0, 0, 0]) :=
  ⟨by norm_num [get_u64_le, fromLeBytes],
    c5_range_reads [3, 0, 0, 0, 0, 0, 0, 0] (by norm_num [get_u64_le, fromLeBytes])⟩

/-- The possible results of
`index.weight_map.into_values().collect::<HashSet<_>>().into_iter().collect()`
(repo.rs lines 187-188): a `HashSet` yields each distinct inserted value
exactly once, but its iteration order depends on the per-process random
hasher seed (`RandomState`), so the possible result lists are exactly the
permutations of the distinct `weight_map` values. -/
def hashSetValueLists (wm : List (String × String)) (l : List String) : Prop :=
  l.Perm (wm.map Prod.snd).dedup

instance (wm : List (String × String)) (l : List String) :
    Decidable (hashSetValueLists wm l) :=
  inferInstanceAs (Decidable (l.Perm _))

/-- `hf_hub::api::tokio::ApiError` as matched by `get_safetensors_index`
(repo.rs lines 173-179): a `RequestError` carries
`reqwest::Error::status()`, an optional HTTP status code; all other
variants are lumped into `other`. -/
inductive ApiError where
  | requestError (status : Option Nat)
  | other
deriving DecidableEq

/-- An error returned by the Shard Index Resolver: a propagated API
error, or a `serde_json` parse failure of the index file. -/
inductive ResolverError where
  | api (e : ApiError)
  | parse
deriving DecidableEq

/-- `SafeTensorsRepo::get_safetensors_index` (repo.rs lines 170-189) as a
relation between inputs and its possible results (a relation because the
success path's ordering is hasher-dependent, see `hashSetValueLists`).
`fetch` models `api_repo.get("model.safetensors.index.json")`;
`parseIndex` models reading and `serde_json`-parsing the fetched file
into the `Index.weight_map` pairs (`none` = parse failure, propagated).
A `RequestError` whose status is `NOT_FOUND` (404) yields the single
default shard name `"model.safetensors"` (line 175); every other error
is propagated (lines 177-179). -/
def get_safetensors_index {σ : Type} (fetch : Except ApiError σ)
    (parseIndex : σ → Option (List (String × String)))
    (r : Except ResolverError (List String)) : Prop :=
  match fetch with
  | .error (.requestError status) =>
    if status = some 404 then r = .ok ["model.safetensors"]
    else r = .error (.api (.requestError status))
  | .error .other => r = .error (.api .other)
  | .ok file =>
    match parseIndex file with
    | none => r = .error .parse
    | some wm => ∃ l, r = .ok l ∧ hashSetValueLists wm l

/-- Counterexample to **C3** as stated: for one concrete `weight_map`
with two distinct shard filenames, both orders of the two filenames are
possible resolver results (`HashSet` iteration order varies with the
process-random hasher seed), and the two orders are unequal — so two runs
over equal manifest contents need not produce equal sequences, and the
order is not sorted either. -/
theorem c3_counterexample_order_not_deterministic :
    hashSetValueLists [("t1", "a.safetensors"), ("t2", "b.safetensors")]
      ["a.safetensors", "b.safetensors"] ∧
    hashSetValueLists [("t1", "a.safetensors"), ("t2", "b.safetensors")]
      ["b.safetensors", "a.safetensors"] ∧
    ["a.safetensors", "b.safetensors"] ≠ ["b.safetensors", "a.safetensors"] := by
  refine ⟨?_, ?_, by decide⟩ <;> decide

/-- **C3 (amended).** For every manifest with the same `weight_map`
contents, any two results of the Shard Index Resolver's value collection
contain the same filenames, each exactly once — they are permutations of
each other — but the order is hasher-dependent, not deterministic across
runs. -/
theorem c3_resolver_outputs_agree_up_to_permutation
    (wm : List (String × String)) (l₁ l₂ : List String)
    (h₁ : hashSetValueLists wm l₁) (h₂ : hashSetValueLists wm l₂) :
    l₁.Perm l₂ :=
  h₁.trans h₂.symm

/-- Witness for C3 (amended): the two possible orders of a two-shard
manifest are permutations of each other. -/
theorem c3_resolver_outputs_agree_up_to_permutation_witness :
    hashSetValueLists [("t1", "a.safetensors"), ("t2", "b.safetensors")]
      ["a.safetensors", "b.safetensors"] ∧
    hashSetValueLists [("t1", "a.safetensors"), ("t2", "b.safetensors")]
      ["b.safetensors", "a.safetensors"] ∧
    List.Perm ["a.safetensors", "b.safetensors"] ["b.safetensors", "a.safetensors"] :=
  ⟨by decide, by decide,
    c3_resolver_outputs_agree_up_to_permutation
      [("t1", "a.safetensors"), ("t2", "b.safetensors")] _ _ (by decide) (by decide)⟩

/-- **C8.** Every possible result of the Shard Index Resolver's value
collection contains each distinct `weight_map` filename exactly once, and
nothing else — duplicates across tensor keys are collapsed. -/
theorem c8_resolver_dedups_filenames (wm : List (String × String))
    (l : List String) (h : hashSetValueLists wm l) :
    (∀ s, s ∈ wm.map Prod.snd → l.count s = 1) ∧
    (∀ s, s ∈ l → s ∈ wm.map Prod.snd) := by
  constructor
  · intro s hs
    rw [h.count_eq]
    exact List.count_eq_one_of_mem (List.nodup_dedup _) (List.mem_dedup.mpr hs)
  · intro s hs
    exact List.mem_dedup.mp (h.mem_iff.mp hs)

/-- Witness for C8: the spec's own example manifest
`{"t1": "a", "t2": "b", "t3": "a"}` resolves to each of `a`, `b`
exactly once. -/
theorem c8_resolver_dedups_filenames_witness :
    hashSetValueLists
      [("t1", "a.safetensors"), ("t2", "b.safetensors"), ("t3", "a.safetensors")]
      ["b.safetensors", "a.safetensors"] ∧
    (∀ s, s ∈ ([("t1", "a.safetensors"), ("t2", "b.safetensors"),
        ("t3", "a.safetensors")].map Prod.snd) →
      (["b.safetensors", "a.safetensors"] : List String).count s = 1) :=
  ⟨by decide,
    (c8_resolver_dedups_filenames
      [("t1", "a.safetensors"), ("t2", "b.safetensors"), ("t3", "a.safetensors")]
      ["b.safetensors", "a.safetensors"] (by decide)).1⟩

/-- **C9.** If the index-manifest fetch fails with a not-found response
(a `RequestError` with HTTP status 404), the Shard Index Resolver does
not fail but returns exactly the single default shard name
`"model.safetensors"`; any other fetch error is propagated as a
failure. -/
theorem c9_not_found_falls_back_to_default {σ : Type}
    (parseIndex : σ → Option (List (String × String))) (e : ApiError)
    (r₁ r₂ : Except ResolverError (List String))
    (h404 : get_safetensors_index (σ := σ) (.error (.requestError (some 404)))
      parseIndex r₁)
    (hne : e ≠ .requestError (some 404))
    (herr : get_safetensors_index (σ := σ) (.error e) parseIndex r₂) :
    r₁ = .ok ["model.safetensors"] ∧ r₂ = .error (.api e) := by
  constructor
  · simpa [get_safetensors_index] using h404
  · cases e with
    | requestError status =>
      have hs : status ≠ some 404 := by
        intro hstatus
        exact hne (by rw [hstatus])
      simpa [get_safetensors_index, hs] using herr
    | other => simpa [get_safetensors_index] using herr

/-- Witness for C9: a 404 fetch yields the default shard list, and a
status-less request error is propagated. -/
theorem c9_not_found_falls_back_to_default_witness :
    ((.ok ["model.safetensors"] : Except ResolverError (List String))
        = .ok ["model.safetensors"]) ∧
    ((.error (.api (.requestError none)) : Except ResolverError (List String))
        = .error (.api (.requestError none))) :=
  c9_not_found_falls_back_to_default (σ := Unit) (fun _ => none)
    (.requestError none) (.ok ["model.safetensors"])
    (.error (.api (.requestError none)))
    (by simp [get_safetensors_index]) (by decide)
    (by simp [get_safetensors_index])

/-- `futures::future::try_join_all` over one batch of fetches, each
fetch's outcome given as an `Except`: all successes yield the list of
results in input order, and a failure yields that future's own error
(deterministically the first failing entry in list order in this
sequential model). -/
def tryJoinAll {ε α : Type} : List (Except ε α) → Except ε (List α)
  | [] => .ok []
  | .error e :: _ => .error e
  | .ok a :: rest =>
    match tryJoinAll rest with
    | .ok as => .ok (a :: as)
    | .error e => .error e

/-- The batching loop of `SafeTensorsRepo::get_checkpoint_metadatas`
(repo.rs lines 141-154): push each checkpoint's fetch onto `tasks`; when
`tasks` reaches `MAX_CONCURRENT`, await the whole batch with
`try_join_all` (propagating its error with `?`), extend `results`, and
start a fresh batch; after the loop, await the residual batch. -/
def orchGo {ε α : Type} (fetch : String → Except ε α) :
    List String → List α → List (Except ε α) → Except ε (List α)
  | [], results, tasks =>
    if tasks.isEmpty then .ok results
    else
      match tryJoinAll tasks with
      | .ok rs => .ok (results ++ rs)
      | .error e => .error e
  | c :: rest, results, tasks =>
    if (tasks ++ [fetch c]).length = MAX_CONCURRENT then
      match tryJoinAll (tasks ++ [fetch c]) with
      | .ok rs => orchGo fetch rest (results ++ rs) []
      | .error e => .error e
    else orchGo fetch rest results (tasks ++ [fetch c])

/-- `SafeTensorsRepo::get_checkpoint_metadatas` (repo.rs lines 132-159)
restricted to its fetch loop: the per-shard fetch (`get_file`, i.e.
cache-or-download) is the parameter `fetch`. -/
def get_checkpoint_metadatas {ε α : Type} (fetch : String → Except ε α)
    (checkpoints : List String) : Except ε (List α) :=
  orchGo fetch checkpoints [] []

/-- The consecutive batches the loop forms, accumulator included: the
pure shape of the `tasks` batching in `get_checkpoint_metadatas`. -/
def batchesGo {α : Type} (n : Nat) : List α → List α → List (List α)
  | [], acc => if acc.isEmpty then [] else [acc]
  | x :: xs, acc =>
    if (acc ++ [x]).length = n then (acc ++ [x]) :: batchesGo n xs []
    else batchesGo n xs (acc ++ [x])

/-- The consecutive batches of at most `n` elements formed by the
orchestrator's loop. -/
def batches {α : Type} (n : Nat) (l : List α) : List (List α) :=
  batchesGo n l []

/-- Strictly sequential batch processing: each batch is fully awaited
(`tryJoinAll`) before the next batch starts, and a batch failure aborts
everything. -/
def processBatches {ε α : Type} (fetch : String → Except ε α) :
    List (List String) → Except ε (List α)
  | [] => .ok []
  | b :: bs =>
    match tryJoinAll (b.map fetch) with
    | .error e => .error e
    | .ok rs =>
      match processBatches fetch bs with
      | .error e => .error e
      | .ok rest => .ok (rs ++ rest)

theorem batchesGo_length_le {α : Type} (n : Nat) (l : List α) :
    ∀ acc : List α, acc.length < n →
      ∀ b ∈ batchesGo n l acc, b.length ≤ n := by
  induction l with
  | nil =>
    intro acc hacc b hb
    unfold batchesGo at hb
    split at hb
    · simp at hb
    · simp at hb
      subst hb
      omega
  | cons x xs ih =>
    intro acc hacc b hb
    unfold batchesGo at hb
    split at hb
    · rename_i hlen
      rcases List.mem_cons.mp hb with hb | hb
      · subst hb
        omega
      · have hn : 0 < n := Nat.lt_of_le_of_lt (Nat.zero_le _) hacc
        exact ih [] (by simpa using hn) b hb
    · rename_i hlen
      refine ih (acc ++ [x]) ?_ b hb
      simp only [List.length_append, List.length_cons, List.length_nil] at hlen ⊢
      omega

theorem batchesGo_flatten {α : Type} (n : Nat) (l : List α) :
    ∀ acc : List α, (batchesGo n l acc).flatten = acc ++ l := by
  induction l with
  | nil =>
    intro acc
    unfold batchesGo
    split
    · rename_i hacc
      simp_all [List.isEmpty_iff]
    · simp
  | cons x xs ih =>
    intro acc
    unfold batchesGo
    split
    · simp [ih]
    · simp [ih]

theorem orchGo_eq_processBatches {ε α : Type} (fetch : String → Except ε α)
    (l : List String) :
    ∀ (results : List α) (acc : List String), acc.length < MAX_CONCURRENT →
      orchGo fetch l results (acc.map fetch) =
        match processBatches fetch (batchesGo MAX_CONCURRENT l acc) with
        | .error e => .error e
        | .ok rs => .ok (results ++ rs) := by
  induction l with
  | nil =>
    intro results acc hacc
    unfold orchGo batchesGo
    by_cases hempty : acc = []
    · subst hempty
      simp [processBatches]
    · rw [if_neg (by simpa [List.isEmpty_iff] using hempty),
        if_neg (by simpa [List.isEmpty_iff] using hempty)]
      simp only [processBatches]
      cases tryJoinAll (acc.map fetch) with
      | ok rs => simp [processBatches]
      | error e => simp
  | cons c rest ih =>
    intro results acc hacc
    unfold orchGo batchesGo
    have hmap : (acc.map fetch) ++ [fetch c] = (acc ++ [c]).map fetch := by
      simp
    have hlen : ((acc.map fetch) ++ [fetch c]).length = ((acc ++ [c]) : List String).length := by
      simp
    by_cases hfull : ((acc ++ [c]) : List String).length = MAX_CONCURRENT
    · rw [if_pos (by rw [hlen]; exact hfull), if_pos hfull, hmap]
      simp only [processBatches]
      cases htj : tryJoinAll ((acc ++ [c]).map fetch) with
      | error e => simp
      | ok rs =>
        dsimp only
        have h2 := ih (results ++ rs) [] (by simp [MAX_CONCURRENT])
        simp only [List.map_nil] at h2
        rw [h2]
        cases processBatches fetch (batchesGo MAX_CONCURRENT rest []) with
        | error e => simp
        | ok rest' => simp
    · rw [if_neg (by rw [hlen]; exact hfull), if_neg hfull, hmap]
      refine ih results (acc ++ [c]) ?_
      simp only [List.length_append, List.length_cons, List.length_nil] at hfull hacc ⊢
      omega

/-- **C7.** For every shard sequence longer than `MAX_CONCURRENT` (= 8),
the orchestrator partitions it into consecutive batches of at most
`MAX_CONCURRENT` shards (the batches flatten back to the original
sequence), and its result equals strictly sequential processing of those
batches, in which the only fetches in flight at any time are the ones of
a single batch — so at most `MAX_CONCURRENT` at once — and batch `N+1` is
not started before batch `N` fully completes or fails. -/
theorem c7_bounded_batched_concurrency {ε α : Type}
    (fetch : String → Except ε α) (cps : List String)
    (hlong : MAX_CONCURRENT < cps.length) :
    (∀ b ∈ batches MAX_CONCURRENT cps, b.length ≤ MAX_CONCURRENT) ∧
    (batches MAX_CONCURRENT cps).flatten = cps ∧
    get_checkpoint_metadatas fetch cps =
      processBatches fetch (batches MAX_CONCURRENT cps) := by
  refine ⟨batchesGo_length_le MAX_CONCURRENT cps [] (by simp [MAX_CONCURRENT]), ?_, ?_⟩
  · simpa using batchesGo_flatten MAX_CONCURRENT cps []
  · have h := orchGo_eq_processBatches fetch cps [] []
      (by simp [MAX_CONCURRENT])
    simp only [List.map_nil] at h
    rw [get_checkpoint_metadatas, batches, h]
    cases processBatches fetch (batchesGo MAX_CONCURRENT cps []) with
    | error e => simp
    | ok rs => simp

/-- Witness for C7: nine shards split into a batch of eight and a batch
of one, and the orchestrator processes them batch-sequentially. -/
theorem c7_bounded_batched_concurrency_witness :
    MAX_CONCURRENT <
      (["s1", "s2", "s3", "s4", "s5", "s6", "s7", "s8", "s9"] : List String).length ∧
    ((∀ b ∈ batches MAX_CONCURRENT
        ["s1", "s2", "s3", "s4", "s5", "s6", "s7", "s8", "s9"],
        b.length ≤ MAX_CONCURRENT) ∧
      (batches MAX_CONCURRENT
        ["s1", "s2", "s3", "s4", "s5", "s6", "s7", "s8", "s9"]).flatten =
        ["s1", "s2", "s3", "s4", "s5", "s6", "s7", "s8", "s9"] ∧
      get_checkpoint_metadatas (fun s => (.ok s : Except Unit String))
          ["s1", "s2", "s3", "s4", "s5", "s6", "s7", "s8", "s9"] =
        processBatches (fun s => (.ok s : Except Unit String))
          (batches MAX_CONCURRENT
            ["s1", "s2", "s3", "s4", "s5", "s6", "s7", "s8", "s9"])) :=
  ⟨by decide,
    c7_bounded_batched_concurrency (fun s => (.ok s : Except Unit String))
      ["s1", "s2", "s3", "s4", "s5", "s6", "s7", "s8", "s9"] (by decide)⟩

theorem tryJoinAll_error_mem {ε α : Type} (xs : List (Except ε α)) (e : ε)
    (h : tryJoinAll xs = .error e) : .error e ∈ xs := by
  induction xs with
  | nil => exact absurd h (by simp [tryJoinAll])
  | cons x rest ih =>
    cases x with
    | error e' =>
      simp only [tryJoinAll, Except.error.injEq] at h
      subst h
      exact List.mem_cons_self _ _
    | ok a =>
      simp only [tryJoinAll] at h
      cases htj : tryJoinAll rest with
      | ok as => rw [htj] at h; simp at h
      | error e'' =>
        rw [htj] at h
        simp only [Except.error.injEq] at h
        subst h
        exact List.mem_cons_of_mem _ (ih htj)

theorem tryJoinAll_error_of_mem {ε α : Type} (xs : List (Except ε α)) (e : ε)
    (hx : .error e ∈ xs) : ∃ e', tryJoinAll xs = .error e' := by
  induction xs with
  | nil => simp at hx
  | cons x rest ih =>
    cases x with
    | error e' => exact ⟨e', by simp [tryJoinAll]⟩
    | ok a =>
      have hx' : Except.error e ∈ rest := by
        rcases List.mem_cons.mp hx with h | h
        · exact absurd h (by simp)
        · exact h
      obtain ⟨e'', he''⟩ := ih hx'
      exact ⟨e'', by simp [tryJoinAll, he'']⟩

theorem processBatches_error_of_mem {ε α : Type} (fetch : String → Except ε α)
    (bs : List (List String)) (c : String) (e : ε)
    (hb : ∃ b ∈ bs, c ∈ b) (hc : fetch c = .error e) :
    ∃ c' e', (∃ b' ∈ bs, c' ∈ b') ∧ fetch c' = .error e' ∧
      processBatches fetch bs = .error e' := by
  induction bs with
  | nil => simp at hb
  | cons b rest ih =>
    cases htj : tryJoinAll (b.map fetch) with
    | error e₀ =>
      have hmem : Except.error e₀ ∈ b.map fetch := tryJoinAll_error_mem _ _ htj
      obtain ⟨c', hc', hfc'⟩ := List.mem_map.mp hmem
      exact ⟨c', e₀, ⟨b, List.mem_cons_self _ _, hc'⟩, hfc',
        by simp [processBatches, htj]⟩
    | ok rs =>
      obtain ⟨b', hb', hcb'⟩ := hb
      rcases List.mem_cons.mp hb' with hbb | hbrest
      · subst hbb
        have : ∃ e', tryJoinAll (b'.map fetch) = .error e' :=
          tryJoinAll_error_of_mem _ e (by
            rw [← hc]
            exact List.mem_map_of_mem fetch hcb')
        obtain ⟨e', he'⟩ := this
        rw [htj] at he'
        simp at he'
      · obtain ⟨c', e', ⟨b'', hb'', hcb''⟩, hfc', hpb⟩ :=
          ih ⟨b', hbrest, hcb'⟩
        exact ⟨c', e', ⟨b'', List.mem_cons_of_mem _ hb'', hcb''⟩, hfc',
          by simp [processBatches, htj, hpb]⟩

/-- **C6.** Fail-fast: if any one shard's fetch fails, the orchestrator's
overall result is a failure carrying a failing shard's own error (in this
deterministic model of `try_join_all`, the first failing future), so no
mapping is returned for the other, otherwise-successful shards, and
results already accumulated from prior batches are discarded — the caller
gets only the error. -/
theorem c6_fail_fast {ε α : Type} (fetch : String → Except ε α)
    (cps : List String) (c : String) (e : ε)
    (hc : c ∈ cps) (hf : fetch c = .error e) :
    ∃ c' e', c' ∈ cps ∧ fetch c' = .error e' ∧
      get_checkpoint_metadatas fetch cps = .error e' := by
  have hflat : (batchesGo MAX_CONCURRENT cps ([] : List String)).flatten = cps := by
    simpa using batchesGo_flatten MAX_CONCURRENT cps []
  have hcb : ∃ b ∈ batchesGo MAX_CONCURRENT cps ([] : List String), c ∈ b := by
    rw [← List.mem_flatten, hflat]
    exact hc
  obtain ⟨c', e', ⟨b', hb', hcb'⟩, hfc', hpb⟩ :=
    processBatches_error_of_mem fetch _ c e hcb hf
  refine ⟨c', e', ?_, hfc', ?_⟩
  · rw [← hflat]
    exact List.mem_flatten.mpr ⟨b', hb', hcb'⟩
  · have h := orchGo_eq_processBatches fetch cps [] [] (by simp [MAX_CONCURRENT])
    simp only [List.map_nil] at h
    rw [get_checkpoint_metadatas, h, hpb]

/-- Witness for C6: with one failing shard among two, the orchestrator
returns that shard's error and no results. -/
theorem c6_fail_fast_witness :
    ∃ c' e', c' ∈ ["good", "bad"] ∧
      (fun s => if s = "bad" then (.error 0 : Except Nat Nat) else .ok 1) c'
        = .error e' ∧
      get_checkpoint_metadatas
        (fun s => if s = "bad" then (.error 0 : Except Nat Nat) else .ok 1)
        ["good", "bad"] = .error e' :=
  c6_fail_fast (fun s => if s = "bad" then (.error 0 : Except Nat Nat) else .ok 1)
    ["good", "bad"] "bad" 0 (by decide) rfl

/-- `TensorMetadata` (metadata.rs lines 16-22).  The external
`safetensors::tensor::TensorInfo` and the `Quantization` value are type
parameters `τ` and `κ`. -/
structure TensorMetadata (τ κ : Type) where
  name : String
  tensor_info : τ
  checkpoint : String
  quantization : Option κ
deriving DecidableEq

/-- One iteration of the loop body of `get_tensors` (metadata.rs lines
192-210): `tensors.extend(metadata.metadata.tensors().into_iter().map(...))`.
A shard's parsed tensor table (`Metadata::tensors()`, a `HashMap`) is
modelled as the finite map `String → Option τ`; since `HashMap` keys are
unique, `extend` is pointwise: a name owned by this shard is overwritten
with this shard's entry (carrying this shard's `filename` and
`Quantization::new(config)`), any other name keeps its previous entry. -/
def extendTensors {τ κ γ : Type} (qnew : γ → Option κ) (config : γ)
    (tensors : String → Option (TensorMetadata τ κ))
    (metadata : CheckpointMetadata (String → Option τ)) :
    String → Option (TensorMetadata τ κ) :=
  fun name =>
    match metadata.metadata name with
    | some tensor_info =>
      some ⟨name, tensor_info, metadata.filename, qnew config⟩
    | none => tensors name

/-- `get_tensors` (metadata.rs lines 187-213): fold `extendTensors` over
the checkpoint metadatas in slice order, starting from the empty map.
`qnew` models `Quantization::new` applied to the model `config`. -/
def get_tensors {τ κ γ : Type} (qnew : γ → Option κ) (config : γ)
    (checkpoint_metadatas : List (CheckpointMetadata (String → Option τ))) :
    String → Option (TensorMetadata τ κ) :=
  checkpoint_metadatas.foldl (extendTensors qnew config) (fun _ => none)

theorem foldl_extendTensors_skip {τ κ γ : Type} (qnew : γ → Option κ)
    (config : γ) (l : List (CheckpointMetadata (String → Option τ)))
    (name : String) (h : ∀ cp' ∈ l, cp'.metadata name = none) :
    ∀ acc : String → Option (TensorMetadata τ κ),
      l.foldl (extendTensors qnew config) acc name = acc name := by
  induction l with
  | nil => intro acc; rfl
  | cons cp l ih =>
    intro acc
    rw [List.foldl_cons]
    rw [ih (fun cp' hcp' => h cp' (List.mem_cons_of_mem _ hcp'))]
    unfold extendTensors
    rw [h cp (List.mem_cons_self _ _)]

/-- **C10.** In the per-tensor map built by `get_tensors`, for every
config and every checkpoint-metadata list, a tensor name occurring in
several checkpoints gets exactly one entry (the result is a map), and
that entry's checkpoint filename and tensor info come from the last
checkpoint in the list containing the name: later shards silently
overwrite earlier ones. -/
theorem c10_last_checkpoint_wins {τ κ γ : Type} (qnew : γ → Option κ)
    (config : γ) (l₁ l₂ : List (CheckpointMetadata (String → Option τ)))
    (cp : CheckpointMetadata (String → Option τ)) (name : String) (ti : τ)
    (hcp : cp.metadata name = some ti)
    (hlater : ∀ cp' ∈ l₂, cp'.metadata name = none) :
    get_tensors qnew config (l₁ ++ cp :: l₂) name =
      some ⟨name, ti, cp.filename, qnew config⟩ := by
  unfold get_tensors
  rw [List.foldl_append, List.foldl_cons,
    foldl_extendTensors_skip qnew config l₂ name hlater]
  unfold extendTensors
  rw [hcp]

/-- Witness for C10: the name `"t"` occurs in both of two checkpoints;
the merged map returns the second checkpoint's info and filename. -/
theorem c10_last_checkpoint_wins_witness :
    (CheckpointMetadata.mk "b.safetensors"
        (fun n : String => if n = "t" then some 2 else none)).metadata "t"
      = some 2 ∧
    get_tensors (fun _ : Unit => (none : Option Unit)) ()
      [⟨"a.safetensors", fun n : String => if n = "t" then some 1 else none⟩,
        ⟨"b.safetensors", fun n : String => if n = "t" then some 2 else none⟩] "t"
      = some ⟨"t", 2, "b.safetensors", none⟩ :=
  ⟨rfl,
    c10_last_checkpoint_wins (fun _ : Unit => (none : Option Unit)) ()
      [⟨"a.safetensors", fun n : String => if n = "t" then some 1 else none⟩] []
      ⟨"b.safetensors", fun n : String => if n = "t" then some 2 else none⟩
      "t" 2 rfl (by simp)⟩

end SafetensorsBrowser
